import Mathlib

/-!
# Verification of the FridgeOmeter live-scanner streaming core

Shallow embedding of the scanner session logic of
`src/services/geminiService.ts` (the `ScannerView` component): the playback
scheduler of the `onmessage` handler, the `stopScanner` teardown, the
transcript hazard classifier, the PCM16 capture/playback conversion, the
frame timer tick, the permission-denied retry path, and the base64
`encode`/`decode` pair.

Times and audio sample values are modelled as rationals; JavaScript strings
are modelled through their character lists; browser built-ins (`Math.max`,
`btoa`/`atob`, `Int16Array` element conversion) are modelled after their
platform specifications.
-/

namespace FridgeOmeter

/-! ## Playback scheduler (`onmessage`, geminiService.ts lines 1362-1373)

The handler keeps a cursor `nextStartTimeRef`.  On an inbound audio payload it
executes
`nextStartTime := max(nextStartTime, ctx.currentTime)`,
`srcNode.start(nextStartTime)`, `nextStartTime += buffer.duration`.
A chunk is modelled as the pair (output-clock reading at arrival, buffer
duration). -/

/-- `Math.max(nextStartTimeRef.current, audioCtxRef.current.currentTime)`. -/
def startTime (cursor clock : ℚ) : ℚ := max cursor clock

/-- One execution of the audio branch of `onmessage`: returns the time the
buffer is started at and the updated cursor. -/
def handleAudioChunk (cursor clock dur : ℚ) : ℚ × ℚ :=
  let s := startTime cursor clock
  (s, s + dur)

/-- Scheduled start times produced by running the `onmessage` audio branch on
a sequence of chunks `(clock, duration)`, starting from cursor `cursor`. -/
def playStarts (cursor : ℚ) : List (ℚ × ℚ) → List ℚ
  | [] => []
  | (clock, dur) :: rest =>
    let s := startTime cursor clock
    s :: playStarts (s + dur) rest

/-- The cursor value after running the `onmessage` audio branch on a sequence
of chunks. -/
def cursorAfter (cursor : ℚ) : List (ℚ × ℚ) → ℚ
  | [] => cursor
  | (clock, dur) :: rest => cursorAfter (startTime cursor clock + dur) rest

theorem playStarts_length (cursor : ℚ) (chunks : List (ℚ × ℚ)) :
    (playStarts cursor chunks).length = chunks.length := by
  induction chunks generalizing cursor with
  | nil => rfl
  | cons p rest ih => obtain ⟨clock, dur⟩ := p; simp [playStarts, ih]

/-- Auxiliary gapless-scheduling lemma: if on arrival of each chunk the output
clock is at or behind the running cursor, then the i-th scheduled start is the
initial cursor plus the durations of all previous chunks. -/
theorem playStarts_gapless (chunks : List (ℚ × ℚ)) : ∀ (c0 : ℚ),
    (∀ i, i < chunks.length →
      (chunks.getD i (0, 0)).1 ≤ c0 + ((chunks.map Prod.snd).take i).sum) →
    ∀ i, i < chunks.length →
      (playStarts c0 chunks).getD i 0 = c0 + ((chunks.map Prod.snd).take i).sum := by
  induction chunks with
  | nil => intro c0 _ i hi; simp at hi
  | cons p rest ih =>
    intro c0 h i hi
    obtain ⟨clock, dur⟩ := p
    have h0 : clock ≤ c0 := by simpa using h 0 (by simp)
    have hstart : startTime c0 clock = c0 := max_eq_left h0
    cases i with
    | zero => simp [playStarts, hstart]
    | succ j =>
      have hj : j < rest.length := by simpa using hi
      have hrec := ih (c0 + dur) (fun k hk => by
        have hk1 := h (k + 1) (by simpa using Nat.succ_lt_succ hk)
        simp only [List.getD_cons_succ, List.map_cons, List.take_succ_cons,
          List.sum_cons] at hk1
        linarith) j hj
      simp only [playStarts, hstart, List.getD_cons_succ, List.map_cons,
        List.take_succ_cons, List.sum_cons]
      rw [hrec]; ring

/-- C1: on every inbound audio payload the scheduler starts the decoded buffer
at `max(cursor, currentOutputClockTime)`; for a sequence of chunks arriving
with the output clock always at or behind the running cursor, the i-th start
equals the initial cursor plus the durations of all previous chunks
(contiguous, gapless); and when the clock has advanced past the cursor, the
chunk starts at the current clock time. -/
theorem audio_scheduling_gapless :
    (∀ cursor clock dur : ℚ,
      handleAudioChunk cursor clock dur = (max cursor clock, max cursor clock + dur)) ∧
    (∀ (c0 : ℚ) (chunks : List (ℚ × ℚ)),
      (∀ i, i < chunks.length →
        (chunks.getD i (0, 0)).1 ≤ c0 + ((chunks.map Prod.snd).take i).sum) →
      ∀ i, i < chunks.length →
        (playStarts c0 chunks).getD i 0 = c0 + ((chunks.map Prod.snd).take i).sum) ∧
    (∀ cursor clock dur : ℚ, cursor ≤ clock → (handleAudioChunk cursor clock dur).1 = clock) :=
  ⟨fun _ _ _ => rfl, fun c0 chunks => playStarts_gapless chunks c0,
    fun _ _ _ h => max_eq_right h⟩

/-- Instantiation of `audio_scheduling_gapless` at the spec's example: three
chunks of duration 1/2 arriving while the clock stays at 0 are scheduled at
0, 1/2 and 1, and a starved chunk (cursor 1, clock 5) starts at clock time. -/
theorem audio_scheduling_gapless_witness :
    ((playStarts 0 [(0, 1/2), (0, 1/2), (0, 1/2)]).getD 0 0 = 0 ∧
     (playStarts 0 [(0, 1/2), (0, 1/2), (0, 1/2)]).getD 1 0 = 1/2 ∧
     (playStarts 0 [(0, 1/2), (0, 1/2), (0, 1/2)]).getD 2 0 = 1) ∧
    (handleAudioChunk 1 5 (1/2)).1 = 5 := by
  have hchunks : ∀ i, i < ([((0 : ℚ), (1 : ℚ)/2), (0, 1/2), (0, 1/2)]).length →
      (([((0 : ℚ), (1 : ℚ)/2), (0, 1/2), (0, 1/2)]).getD i (0, 0)).1 ≤
        0 + ((([((0 : ℚ), (1 : ℚ)/2), (0, 1/2), (0, 1/2)]).map Prod.snd).take i).sum := by
    intro i hi
    simp only [List.length_cons, List.length_nil] at hi
    interval_cases i <;> norm_num
  refine ⟨⟨?_, ?_, ?_⟩, audio_scheduling_gapless.2.2 1 5 (1/2) (by norm_num)⟩
  · have := audio_scheduling_gapless.2.1 0 _ hchunks 0 (by norm_num)
    norm_num at this ⊢
    exact this
  · have := audio_scheduling_gapless.2.1 0 _ hchunks 1 (by norm_num)
    norm_num at this ⊢
    exact this
  · have := audio_scheduling_gapless.2.1 0 _ hchunks 2 (by norm_num)
    norm_num at this ⊢
    exact this

/-- C2: the playback cursor is monotonically non-decreasing: one handling of
an audio payload raises the cursor to `max(cursor, clock)` and advances it by
the non-negative buffer duration, and over any sequence of chunks with
non-negative durations the cursor never decreases. -/
theorem cursor_monotone :
    (∀ cursor clock dur : ℚ, 0 ≤ dur → cursor ≤ (handleAudioChunk cursor clock dur).2) ∧
    (∀ (c : ℚ) (chunks : List (ℚ × ℚ)),
      (∀ p ∈ chunks, 0 ≤ p.2) → c ≤ cursorAfter c chunks) := by
  constructor
  · intro cursor clock dur hdur
    have : cursor ≤ max cursor clock := le_max_left _ _
    simp only [handleAudioChunk, startTime]
    linarith
  · intro c chunks
    induction chunks generalizing c with
    | nil => intro _; simp [cursorAfter]
    | cons p rest ih =>
      intro h
      obtain ⟨clock, dur⟩ := p
      have hdur : 0 ≤ dur := h (clock, dur) (by simp)
      have h1 : c ≤ startTime c clock + dur := by
        have : c ≤ max c clock := le_max_left _ _
        simp only [startTime]; linarith
      have h2 := ih (startTime c clock + dur) (fun q hq => h q (by simp [hq]))
      calc c ≤ startTime c clock + dur := h1
        _ ≤ cursorAfter (startTime c clock + dur) rest := h2
        _ = cursorAfter c ((clock, dur) :: rest) := rfl

/-- Instantiation of `cursor_monotone` at cursor 3, clock 7, duration 1/2. -/
theorem cursor_monotone_witness :
    (0 : ℚ) ≤ 1/2 ∧ (3 : ℚ) ≤ (handleAudioChunk 3 7 (1/2)).2 :=
  ⟨by norm_num, cursor_monotone.1 3 7 (1/2) (by norm_num)⟩

/-! ## `stopScanner` teardown (geminiService.ts lines 1300-1310)

```
const stopScanner = () => {
  setActive(false);
  setMouldAlert(false);
  if (sessionRef.current) { try { sessionRef.current.close(); } catch(e) {} sessionRef.current = null; }
  if (videoRef.current?.srcObject) { tracks.forEach(t => t.stop()); videoRef.current.srcObject = null; }
  for (const source of sourcesRef.current) { try { source.stop(); } catch(e) {} }
  sourcesRef.current.clear();
  if (audioCtxRef.current) { try { audioCtxRef.current.close(); } catch(e) {} audioCtxRef.current = null; }
  if (micCtxRef.current) { try { micCtxRef.current.close(); } catch(e) {} micCtxRef.current = null; }
  nextStartTimeRef.current = 0;
};
```

Each externally closable resource carries a flag saying whether its
`close()`/`stop()` call raises; the `try/catch` wrappers in the source discard
such an error and execution continues.  `MediaStreamTrack.stop()` never throws
per the platform specification, so camera tracks carry no failure flag.
The function is modelled as a total map from scanner state to the new state
plus the trace of executed steps. -/

/-- A resource whose `close()`/`stop()` may raise (session, source nodes,
audio contexts); the flag records whether the call raises when made. -/
structure Closable where
  id : Nat
  closeFails : Bool
deriving DecidableEq, Repr

/-- The mutable refs of `ScannerView` that `stopScanner` touches. -/
structure ScannerState where
  active : Bool
  mouldAlert : Bool
  session : Option Closable
  videoTracks : Option (List Nat)
  sources : List Closable
  audioCtx : Option Closable
  micCtx : Option Closable
  nextStartTime : ℚ
deriving DecidableEq

/-- One observable step of the teardown; failure flags record a raised (and
caught) error from the underlying close call. -/
inductive TeardownStep where
  | setActiveFalse : TeardownStep
  | setMouldAlertFalse : TeardownStep
  | closeSession (failed : Bool) : TeardownStep
  | stopTrack (id : Nat) : TeardownStep
  | stopSource (id : Nat) (failed : Bool) : TeardownStep
  | clearSources : TeardownStep
  | closeAudioCtx (failed : Bool) : TeardownStep
  | closeMicCtx (failed : Bool) : TeardownStep
  | resetCursor : TeardownStep
deriving DecidableEq, Repr

/-- The initial state of the `ScannerView` refs: `active` false, no session,
no capture stream, empty in-flight set, no contexts, cursor zero. -/
def initialScannerState : ScannerState :=
  { active := false, mouldAlert := false, session := none, videoTracks := none,
    sources := [], audioCtx := none, micCtx := none, nextStartTime := 0 }

/-- `stopScanner`, step for step in source order.  Every guarded close is
executed under `try/catch`, so the trace and the final state never depend on
whether a close raises. -/
def stopScanner (s : ScannerState) : ScannerState × List TeardownStep :=
  let tr : List TeardownStep :=
    [TeardownStep.setActiveFalse, TeardownStep.setMouldAlertFalse]
    ++ (match s.session with
        | some c => [TeardownStep.closeSession c.closeFails]
        | none => [])
    ++ (match s.videoTracks with
        | some ts => ts.map TeardownStep.stopTrack
        | none => [])
    ++ s.sources.map (fun src => TeardownStep.stopSource src.id src.closeFails)
    ++ [TeardownStep.clearSources]
    ++ (match s.audioCtx with
        | some c => [TeardownStep.closeAudioCtx c.closeFails]
        | none => [])
    ++ (match s.micCtx with
        | some c => [TeardownStep.closeMicCtx c.closeFails]
        | none => [])
    ++ [TeardownStep.resetCursor]
  (initialScannerState, tr)

/-- C3: after `stopScanner` the in-flight set is empty, the cursor is reset to
zero, and every handle that was in the in-flight set received its `stop()`
call during the teardown. -/
theorem stopScanner_cancels_all (s : ScannerState) :
    (stopScanner s).1.sources = [] ∧
    (stopScanner s).1.nextStartTime = 0 ∧
    ∀ src ∈ s.sources,
      TeardownStep.stopSource src.id src.closeFails ∈ (stopScanner s).2 := by
  refine ⟨rfl, rfl, ?_⟩
  intro src hsrc
  simp only [stopScanner, List.mem_append, List.mem_map]
  exact Or.inl (Or.inl (Or.inl (Or.inl (Or.inr ⟨src, hsrc, rfl⟩))))

/-- A sample live scanner state: open session, a camera stream with two
tracks, two in-flight playback handles (one whose `stop()` raises), both
audio contexts live, cursor at 9. -/
def sampleScannerState : ScannerState where
  active := true
  mouldAlert := true
  session := some ⟨0, false⟩
  videoTracks := some [1, 2]
  sources := [⟨5, false⟩, ⟨6, true⟩]
  audioCtx := some ⟨7, false⟩
  micCtx := some ⟨8, false⟩
  nextStartTime := 9

/-- Instantiation of `stopScanner_cancels_all` at `sampleScannerState`:
both in-flight handles receive `stop()`, the set empties, the cursor resets. -/
theorem stopScanner_cancels_all_witness :
    (stopScanner sampleScannerState).1.sources = [] ∧
    TeardownStep.stopSource 6 true ∈ (stopScanner sampleScannerState).2 :=
  ⟨(stopScanner_cancels_all sampleScannerState).1,
   (stopScanner_cancels_all sampleScannerState).2.2 ⟨6, true⟩ (by decide)⟩

/-! ### Teardown order (claim: channel, then scheduler reset, then capture
close, then output-context release)

`claimRank` assigns to each teardown step the phase number the specification
claims for it: 0 = close streaming channel, 1 = reset playback scheduler and
cancel in-flight handles, 2 = close capture devices, 3 = release the output
audio context.  UI state writes carry no phase.  The claimed order holds iff
the phase numbers along the trace are non-decreasing. -/

/-- The phase the specification assigns to a step (spec §4.5 teardown order
(a)-(d)); `none` for the UI state writes the claim does not speak about. -/
def claimRank : TeardownStep → Option Nat
  | .closeSession _ => some 0
  | .stopSource _ _ => some 1
  | .clearSources => some 1
  | .resetCursor => some 1
  | .stopTrack _ => some 2
  | .closeMicCtx _ => some 2
  | .closeAudioCtx _ => some 3
  | _ => none

/-- The phase of each step in the order the code actually executes them:
session close, camera-track stops, in-flight source stops and set clear,
output-context close, mic-context close, cursor reset. -/
def stepRank : TeardownStep → Nat
  | .setActiveFalse => 0
  | .setMouldAlertFalse => 0
  | .closeSession _ => 1
  | .stopTrack _ => 2
  | .stopSource _ _ => 3
  | .clearSources => 3
  | .closeAudioCtx _ => 4
  | .closeMicCtx _ => 5
  | .resetCursor => 6

/-- Concatenation of constant blocks: `(count, value)` becomes
`replicate count value`. -/
def rankBlocks : List (Nat × Nat) → List Nat
  | [] => []
  | (n, v) :: rest => List.replicate n v ++ rankBlocks rest

theorem mem_rankBlocks {x : Nat} :
    ∀ blocks, x ∈ rankBlocks blocks → ∃ b ∈ blocks, x = b.2 := by
  intro blocks hx
  induction blocks with
  | nil => simp [rankBlocks] at hx
  | cons b rest ih =>
    obtain ⟨n, v⟩ := b
    rcases List.mem_append.mp hx with h | h
    · exact ⟨(n, v), by simp, List.eq_of_mem_replicate h⟩
    · obtain ⟨b2, hb2, hx2⟩ := ih h
      exact ⟨b2, by simp [hb2], hx2⟩

theorem sorted_replicate (n a : Nat) : (List.replicate n a).Sorted (· ≤ ·) := by
  induction n with
  | zero => simp
  | succ m ih =>
    rw [List.replicate_succ]
    exact List.sorted_cons.mpr ⟨fun b hb => by rw [List.eq_of_mem_replicate hb], ih⟩

theorem rankBlocks_sorted :
    ∀ blocks : List (Nat × Nat), ((blocks.map Prod.snd).Sorted (· ≤ ·)) →
      (rankBlocks blocks).Sorted (· ≤ ·) := by
  intro blocks h
  induction blocks with
  | nil => simp [rankBlocks]
  | cons b rest ih =>
    obtain ⟨n, v⟩ := b
    simp only [List.map_cons, List.sorted_cons] at h
    rw [rankBlocks, List.Sorted, List.pairwise_append]
    refine ⟨sorted_replicate n v, ih h.2, ?_⟩
    intro a ha c hc
    obtain ⟨b2, hb2, hc2⟩ := mem_rankBlocks rest hc
    rw [List.eq_of_mem_replicate ha, hc2]
    exact h.1 b2.2 (List.mem_map_of_mem Prod.snd hb2)

/-- Number of resources held by an optional ref (0 or 1). -/
def optCount {α : Type} : Option α → Nat
  | none => 0
  | some _ => 1

/-- Number of camera tracks held by the video ref. -/
def trackCount (s : ScannerState) : Nat := (s.videoTracks.getD []).length

theorem map_rank_tracks (ts : List Nat) :
    ts.map (stepRank ∘ TeardownStep.stopTrack) = List.replicate ts.length 2 := by
  induction ts with
  | nil => rfl
  | cons t rest ih => simp only [List.map_cons, List.length_cons,
      List.replicate_succ, ih, Function.comp_apply, stepRank]

theorem map_rank_sources (srcs : List Closable) :
    srcs.map (stepRank ∘ fun src => TeardownStep.stopSource src.id src.closeFails)
      = List.replicate srcs.length 3 := by
  induction srcs with
  | nil => rfl
  | cons c rest ih => simp only [List.map_cons, List.length_cons,
      List.replicate_succ, ih, Function.comp_apply, stepRank]

/-- C4 counterexample: at `sampleScannerState` (live session, camera, two
in-flight handles, both contexts) the trace's claimed-phase sequence is
`[0, 2, 2, 1, 1, 1, 3, 2, 1]` — camera-track stops (phase 2) come before the
scheduler reset (phase 1) and the output-context release (phase 3) comes
before the mic close (phase 2) — so the claimed order (a) channel,
(b) scheduler, (c) capture, (d) output is violated. -/
theorem teardown_order_counterexample :
    (stopScanner sampleScannerState).2.filterMap claimRank = [0, 2, 2, 1, 1, 1, 3, 2, 1] ∧
    ¬ ((stopScanner sampleScannerState).2.filterMap claimRank).Sorted (· ≤ ·) := by
  constructor
  · rfl
  · intro h
    have : (2 : ℕ) ≤ 1 := by
      have h2 := h
      rw [show (stopScanner sampleScannerState).2.filterMap claimRank
          = [0, 2, 2, 1, 1, 1, 3, 2, 1] from rfl] at h2
      simp only [List.sorted_cons, List.mem_cons] at h2
      exact h2.2.1 1 (by simp)
    omega

/-- C4 amended: the teardown steps of `stopScanner` execute in this fixed
order — (a) close the streaming channel, catching and discarding any error;
then stop the camera capture tracks; then stop every in-flight playback
handle and clear the set; then release the output audio context; then close
the microphone capture context; and finally reset the cursor — and every step
executes regardless of which close calls raise (the failure flags live in the
state and never change the trace shape or the fully-released final state). -/
theorem teardown_order_amended (s : ScannerState) :
    (stopScanner s).2.map stepRank =
      rankBlocks [(2, 0), (optCount s.session, 1), (trackCount s, 2),
        (s.sources.length, 3), (1, 3), (optCount s.audioCtx, 4),
        (optCount s.micCtx, 5), (1, 6)] ∧
    ((stopScanner s).2.map stepRank).Sorted (· ≤ ·) ∧
    (stopScanner s).1 = initialScannerState := by
  have heq : (stopScanner s).2.map stepRank =
      rankBlocks [(2, 0), (optCount s.session, 1), (trackCount s, 2),
        (s.sources.length, 3), (1, 3), (optCount s.audioCtx, 4),
        (optCount s.micCtx, 5), (1, 6)] := by
    obtain ⟨a, m, sess, vid, srcs, actx, mctx, t⟩ := s
    cases sess <;> cases vid <;> cases actx <;> cases mctx <;>
      simp [stopScanner, rankBlocks, stepRank, optCount, trackCount,
        map_rank_tracks, map_rank_sources, List.replicate_succ]
  refine ⟨heq, ?_, rfl⟩
  rw [heq]
  refine rankBlocks_sorted _ ?_
  simp only [List.map_cons, List.map_nil, List.sorted_cons, List.mem_cons]
  norm_num

/-- Whether a teardown step releases an external resource (as opposed to a
plain state write). -/
def isReleaseStep : TeardownStep → Bool
  | .closeSession _ => true
  | .stopTrack _ => true
  | .stopSource _ _ => true
  | .closeAudioCtx _ => true
  | .closeMicCtx _ => true
  | _ => false

/-- C5: `stopScanner` is idempotent and safe from any state: a second
consecutive call reproduces the same (fully released) state, performs no
resource-release step, and calling it on the never-started initial state also
performs no resource-release step; the trace of a second call is the fixed
no-op trace. -/
theorem stopScanner_idempotent :
    (∀ s, (stopScanner (stopScanner s).1).1 = (stopScanner s).1) ∧
    (∀ s, ((stopScanner (stopScanner s).1).2.filter isReleaseStep) = []) ∧
    ((stopScanner initialScannerState).2.filter isReleaseStep = []) ∧
    (∀ s, (stopScanner (stopScanner s).1).2 = (stopScanner initialScannerState).2) :=
  ⟨fun _ => rfl, fun _ => rfl, rfl, fun _ => rfl⟩

/-! ## Transcript hazard classifier (`onmessage`, geminiService.ts 1374-1383)

```
const text = msg.serverContent.outputTranscription.text.toLowerCase();
if (text.includes('mould') || text.includes('mold') || text.includes('spoil')
    || text.includes('fuzzy')) { setMouldAlert(true); } else { setMouldAlert(false); }
```

Strings are handled through their character lists; `toLowerCase` is modelled
on the ASCII range, which covers the four keywords. -/

/-- ASCII lower-casing of one character, as `String.prototype.toLowerCase`
acts on the ASCII range. -/
def asciiToLower (c : Char) : Char :=
  if 'A' ≤ c && c ≤ 'Z' then Char.ofNat (c.toNat + 32) else c

/-- Does `needle` occur at the start of `hay`? -/
def startsWithCh : List Char → List Char → Bool
  | _, [] => true
  | [], _ :: _ => false
  | a :: as, b :: bs => a == b && startsWithCh as bs

/-- Does `needle` occur anywhere in `hay` (`String.prototype.includes`)? -/
def occursIn (hay needle : List Char) : Bool :=
  match hay with
  | [] => startsWithCh [] needle
  | _ :: t => startsWithCh hay needle || occursIn t needle

/-- The lower-cased character list of a transcript event's text. -/
def lowerText (s : String) : List Char := s.data.map asciiToLower

/-- The fixed keyword set of the hazard check. -/
def hazardKeywords : List String := ["mould", "mold", "spoil", "fuzzy"]

/-- The hazard classification of one transcript event's text. -/
def classifyHazard (s : String) : Bool :=
  hazardKeywords.any fun kw => occursIn (lowerText s) kw.data

/-- The `mouldAlert` flag after handling one transcript event, given the
previous flag value: the if/else writes `classifyHazard` unconditionally. -/
def mouldAlertAfter (_prevAlert : Bool) (s : String) : Bool :=
  if classifyHazard s then true else false

theorem startsWithCh_iff (needle : List Char) :
    ∀ hay, startsWithCh hay needle = true ↔ ∃ post, hay = needle ++ post := by
  induction needle with
  | nil => intro hay; simp [startsWithCh]
  | cons b bs ih =>
    intro hay
    cases hay with
    | nil =>
      simp only [startsWithCh]
      constructor
      · intro h; cases h
      · rintro ⟨post, h⟩; cases h
    | cons a as =>
      simp only [startsWithCh, Bool.and_eq_true, beq_iff_eq, ih as]
      constructor
      · rintro ⟨rfl, post, rfl⟩; exact ⟨post, rfl⟩
      · rintro ⟨post, h⟩
        injection h with h1 h2
        exact ⟨h1, post, h2⟩

theorem occursIn_iff (needle : List Char) :
    ∀ hay, occursIn hay needle = true ↔ ∃ pre post, hay = pre ++ needle ++ post := by
  intro hay
  induction hay with
  | nil =>
    simp only [occursIn, startsWithCh_iff]
    constructor
    · rintro ⟨post, h⟩
      exact ⟨[], post, by simpa using h⟩
    · rintro ⟨pre, post, h⟩
      cases pre with
      | cons x xs => simp at h
      | nil => exact ⟨post, by simpa using h⟩
  | cons a t ih =>
    simp only [occursIn, Bool.or_eq_true, startsWithCh_iff, ih]
    constructor
    · rintro (⟨post, h⟩ | ⟨pre, post, h⟩)
      · exact ⟨[], post, by simpa using h⟩
      · exact ⟨a :: pre, post, by simp [h]⟩
    · rintro ⟨pre, post, h⟩
      cases pre with
      | nil => exact Or.inl ⟨post, by simpa using h⟩
      | cons x xs =>
        simp only [List.cons_append] at h
        injection h with h1 h2
        exact Or.inr ⟨xs, post, h2⟩

/-- C6: the hazard alert is true iff the lower-cased event text contains one
of the keywords "mould", "mold", "spoil", "fuzzy"; the alert written after an
event depends only on that event's text (not sticky across events); and the
event sequence "I see some mould here" then "looks fresh now" yields alert
true then false. -/
theorem hazard_classifier_spec :
    (∀ s : String, classifyHazard s = true ↔
      ∃ kw ∈ hazardKeywords, ∃ pre post, lowerText s = pre ++ kw.data ++ post) ∧
    (∀ prev s, mouldAlertAfter prev s = classifyHazard s) ∧
    (mouldAlertAfter false "I see some mould here" = true ∧
     mouldAlertAfter true "looks fresh now" = false) := by
  refine ⟨?_, ?_, ?_, ?_⟩
  · intro s
    simp only [classifyHazard, List.any_eq_true]
    constructor
    · rintro ⟨kw, hkw, h⟩
      exact ⟨kw, hkw, (occursIn_iff kw.data (lowerText s)).mp h⟩
    · rintro ⟨kw, hkw, h⟩
      exact ⟨kw, hkw, (occursIn_iff kw.data (lowerText s)).mpr h⟩
  · intro prev s
    by_cases h : classifyHazard s <;> simp [mouldAlertAfter, h]
  · decide
  · decide

/-- Instantiation of `hazard_classifier_spec` for the text "Fuzzy spots":
its lower-cased form contains the keyword decomposition. -/
theorem hazard_classifier_witness :
    ∃ kw ∈ hazardKeywords, ∃ pre post,
      lowerText "Fuzzy spots" = pre ++ kw.data ++ post :=
  (hazard_classifier_spec.1 "Fuzzy spots").mp (by decide)

/-! ## PCM16 capture encoding and playback decoding

Capture (`scriptNode.onaudioprocess`, geminiService.ts 1352-1358):
`int16[i] = inputData[i] * 32768;` — an `Int16Array` element store, i.e.
ECMAScript `ToInt16`: truncate toward zero, then reduce modulo 2^16 into
[-32768, 32768).  There is no clamping in the source.
Playback (`decodeAudioData`, geminiService.ts 290-306):
`channelData[i] = dataInt16[i * numChannels + channel] / 32768.0;`.
Sample values are modelled as rationals; the multiplication by the power of
two 32768 is exact also on the machine floats. -/

/-- Truncation toward zero of a rational (ECMAScript integer conversion). -/
def truncQ (q : ℚ) : ℤ := if 0 ≤ q then ⌊q⌋ else ⌈q⌉

/-- Reduction modulo 2^16 into the signed 16-bit range (ECMAScript
`ToInt16`, final wrap step). -/
def wrap16 (t : ℤ) : ℤ :=
  let m := t % 65536
  if m < 32768 then m else m - 65536

/-- One capture-side sample conversion: `int16[i] = inputData[i] * 32768`. -/
def encodeSample (x : ℚ) : ℤ := wrap16 (truncQ (x * 32768))

/-- One playback-side sample conversion: `dataInt16[i] / 32768.0`. -/
def decodeSample (i : ℤ) : ℚ := (i : ℚ) / 32768

/-- The capture callback's sample loop over a block. -/
def captureEncode (xs : List ℚ) : List ℤ := xs.map encodeSample

/-- `decodeAudioData`'s sample loop for one mono channel. -/
def decodeAudioData (samples : List ℤ) : List ℚ := samples.map decodeSample

theorem wrap16_eq_self {t : ℤ} (h1 : -32768 ≤ t) (h2 : t ≤ 32767) :
    wrap16 t = t := by
  simp only [wrap16]
  split <;> omega

/-- C7 counterexample: the sample value 1 lies in [-1, 1], but encoding it
multiplies to 32768, which `ToInt16` wraps to -32768, so the decoded value is
-1: the round-trip error is 2, far above one quantization step. -/
theorem pcm_roundtrip_counterexample :
    encodeSample 1 = -32768 ∧
    decodeSample (encodeSample 1) = -1 ∧
    ¬ |(1 : ℚ) - decodeSample (encodeSample 1)| ≤ 1/32768 := by
  have hfloor : ⌊(32768 : ℚ)⌋ = 32768 := by
    rw [Int.floor_eq_iff]
    norm_num
  have henc : encodeSample 1 = -32768 := by
    have h1 : (1 : ℚ) * 32768 = 32768 := by norm_num
    rw [encodeSample, h1, truncQ, if_pos (by norm_num : (0 : ℚ) ≤ 32768), hfloor]
    decide
  have hdec : decodeSample (encodeSample 1) = -1 := by
    rw [henc, decodeSample]
    norm_num
  refine ⟨henc, hdec, ?_⟩
  rw [hdec]
  norm_num

/-- C7 amended: for every sample value in the half-open interval [-1, 1) the
capture encoding followed by the playback decoding reproduces the value
within one quantization step (1/32768), pointwise over any sample block; at
the closed upper endpoint 1 itself the unclamped conversion wraps around
(see the counterexample), so 1 must be excluded. -/
theorem pcm_roundtrip_amended :
    (∀ x : ℚ, -1 ≤ x → x < 1 → |x - decodeSample (encodeSample x)| ≤ 1/32768) ∧
    (∀ xs : List ℚ, (∀ x ∈ xs, -1 ≤ x ∧ x < 1) →
      ∀ i, i < xs.length →
        |xs.getD i 0 - (decodeAudioData (captureEncode xs)).getD i 0| ≤ 1/32768) := by
  have main : ∀ x : ℚ, -1 ≤ x → x < 1 → |x - decodeSample (encodeSample x)| ≤ 1/32768 := by
    intro x h1 h2
    set q : ℚ := x * 32768 with hq
    have hq1 : -32768 ≤ q := by rw [hq]; linarith
    have hq2 : q < 32768 := by rw [hq]; linarith
    have hbounds : -32768 ≤ truncQ q ∧ truncQ q ≤ 32767 ∧ |q - (truncQ q : ℚ)| ≤ 1 := by
      by_cases h0 : 0 ≤ q
      · have hfl : (0 : ℤ) ≤ ⌊q⌋ := Int.floor_nonneg.mpr h0
        have hfu : ⌊q⌋ < 32768 := Int.floor_lt.mpr (by exact_mod_cast hq2)
        have hle : (⌊q⌋ : ℚ) ≤ q := Int.floor_le q
        have hlt : q < ⌊q⌋ + 1 := Int.lt_floor_add_one q
        refine ⟨by simp only [truncQ, if_pos h0]; omega,
          by simp only [truncQ, if_pos h0]; omega, ?_⟩
        simp only [truncQ, if_pos h0]
        rw [abs_le]
        constructor <;> linarith
      · have hcu : ⌈q⌉ ≤ 0 := Int.ceil_le.mpr (by
          push_cast
          linarith [lt_of_not_le h0])
        have hcl : q ≤ (⌈q⌉ : ℚ) := Int.le_ceil q
        have hclq : (-32768 : ℤ) ≤ ⌈q⌉ := by
          have : (-32768 : ℚ) ≤ (⌈q⌉ : ℚ) := le_trans hq1 hcl
          exact_mod_cast this
        have hlt : (⌈q⌉ : ℚ) < q + 1 := Int.ceil_lt_add_one q
        refine ⟨by simp only [truncQ, if_neg h0]; exact hclq,
          by simp only [truncQ, if_neg h0]; omega, ?_⟩
        simp only [truncQ, if_neg h0]
        rw [abs_le]
        constructor <;> linarith
    obtain ⟨hb1, hb2, hb3⟩ := hbounds
    have henc : encodeSample x = truncQ q := by
      rw [encodeSample, ← hq, wrap16_eq_self hb1 hb2]
    have hdec : decodeSample (encodeSample x) = (truncQ q : ℚ) / 32768 := by
      rw [henc, decodeSample]
    have hx : x = q / 32768 := by rw [hq]; ring
    rw [hdec, hx, div_sub_div_same, abs_div]
    have h32 : |(32768 : ℚ)| = 32768 := by norm_num
    rw [h32]
    exact (div_le_div_iff_of_pos_right (by norm_num : (0 : ℚ) < 32768)).mpr hb3
  refine ⟨main, ?_⟩
  intro xs h i hi
  have hmap : decodeAudioData (captureEncode xs) = xs.map fun x => decodeSample (encodeSample x) := by
    simp [decodeAudioData, captureEncode, List.map_map, Function.comp]
  have hget : (decodeAudioData (captureEncode xs)).getD i 0
      = decodeSample (encodeSample (xs.getD i 0)) := by
    rw [hmap]
    rw [List.getD_eq_getElem _ _ hi,
      List.getD_eq_getElem _ _ (by simpa using hi), List.getElem_map]
  rw [hget]
  have hmem : xs.getD i 0 ∈ xs := by
    rw [List.getD_eq_getElem _ _ hi]
    exact List.getElem_mem hi
  have hx := h (xs.getD i 0) hmem
  exact main _ hx.1 hx.2

/-- Instantiation of `pcm_roundtrip_amended` at x = 1/3: encode-then-decode
lands within one quantization step. -/
theorem pcm_roundtrip_witness :
    ((-1 : ℚ) ≤ 1/3 ∧ (1/3 : ℚ) < 1) ∧
    |(1/3 : ℚ) - decodeSample (encodeSample (1/3))| ≤ 1/32768 :=
  ⟨⟨by norm_num, by norm_num⟩,
   pcm_roundtrip_amended.1 (1/3) (by norm_num) (by norm_num)⟩

/-! ## Frame timer (`startScanner`, geminiService.ts 1332-1347)

```
const interval = setInterval(() => {
  if (!sessionRef.current || !videoRef.current || !canvasRef.current) { clearInterval(interval); return; }
  ...draw 400x300, toBlob('image/jpeg', 0.5)...
  reader.onloadend = () => { sessionPromise.then(s => { if (sessionRef.current) s.sendRealtimeInput({...}); }); };
}, 2000);
```

The tick guards only on the liveness of the three refs; nothing records
whether a previous frame's send is still pending. -/

/-- The refs one timer tick reads, plus whether a previously captured frame's
send has not yet completed (the condition the claim speaks about; the code
keeps no such flag). -/
structure TickState where
  sessionLive : Bool
  videoLive : Bool
  canvasLive : Bool
  sendPending : Bool
deriving DecidableEq

/-- What one tick does: how many frames it captures and sends, and whether it
cancels the interval. -/
structure TickResult where
  framesCaptured : Nat
  framesSent : Nat
  timerCancelled : Bool
deriving DecidableEq

/-- One firing of the 2000 ms frame timer, as the source guards it. -/
def frameTimerTick (st : TickState) : TickResult :=
  if !(st.sessionLive && st.videoLive && st.canvasLive) then
    { framesCaptured := 0, framesSent := 0, timerCancelled := true }
  else
    { framesCaptured := 1, framesSent := 1, timerCancelled := false }

/-- C8 counterexample: with the session live and a previous frame's send
still pending, a timer tick is NOT a no-op — it captures and sends another
frame; the code has no at-most-one-frame-in-flight guard. -/
theorem frame_tick_counterexample :
    frameTimerTick ⟨true, true, true, true⟩ =
      { framesCaptured := 1, framesSent := 1, timerCancelled := false } ∧
    ¬ (frameTimerTick ⟨true, true, true, true⟩).framesCaptured = 0 := by
  decide

/-- C8 amended: a timer tick's behaviour is independent of whether a previous
frame's send is pending; it is a no-op (and cancels the interval) exactly
when the session, video or canvas ref is gone, and otherwise captures and
sends exactly one frame per tick. -/
theorem frame_tick_amended :
    (∀ a b c p q : Bool, frameTimerTick ⟨a, b, c, p⟩ = frameTimerTick ⟨a, b, c, q⟩) ∧
    (∀ p : Bool, frameTimerTick ⟨true, true, true, p⟩ =
      { framesCaptured := 1, framesSent := 1, timerCancelled := false }) ∧
    (∀ b c p : Bool, frameTimerTick ⟨false, b, c, p⟩ =
      { framesCaptured := 0, framesSent := 0, timerCancelled := true }) ∧
    (∀ a c p : Bool, frameTimerTick ⟨a, false, c, p⟩ =
      { framesCaptured := 0, framesSent := 0, timerCancelled := true }) ∧
    (∀ a b p : Bool, frameTimerTick ⟨a, b, false, p⟩ =
      { framesCaptured := 0, framesSent := 0, timerCancelled := true }) := by
  decide

/-! ## Permission-denied retry (`startScanner` catch, geminiService.ts
1401-1404, and `captureFullAnalysis` catch, 1432-1435)

```
} catch (e) {
  if (e.message?.includes('PERMISSION_DENIED')) onKeyPrompt().then(s => s && startScanner());
  stopScanner();
}
```

The catch handler recursively re-runs the whole operation whenever the
failure is permission-denied and the key prompt resolves true; there is no
retry counter.  The model runs the operation against a script of per-attempt
outcomes and a script of successive prompt answers, counting how many times
the operation body executes and how many times teardown runs. -/

/-- The outcome of one attempt of the guarded operation. -/
inductive AttemptOutcome where
  | success : AttemptOutcome
  | permissionDenied : AttemptOutcome
  | otherError : AttemptOutcome
deriving DecidableEq

/-- Number of times the operation body runs, given the scripted outcome of
each successive attempt and the scripted prompt answers: a permission-denied
failure whose prompt resolves true re-enters the operation. -/
def attemptsUsed : List AttemptOutcome → List Bool → Nat
  | [], _ => 0
  | .success :: _, _ => 1
  | .otherError :: _, _ => 1
  | .permissionDenied :: rest, prompts =>
    match prompts with
    | true :: ps => 1 + attemptsUsed rest ps
    | _ => 1

/-- Number of times `stopScanner` teardown runs in `startScanner`'s retry
loop (the catch calls it after every failed attempt). -/
def teardownsRun : List AttemptOutcome → List Bool → Nat
  | [], _ => 0
  | .success :: _, _ => 0
  | .otherError :: _, _ => 1
  | .permissionDenied :: rest, prompts =>
    match prompts with
    | true :: ps => 1 + teardownsRun rest ps
    | _ => 1

/-- C9 counterexample: three consecutive permission-denied failures with the
prompt answering yes twice make the operation run three times — the original
call plus two automatic retries — refuting "retried exactly once" (which
would allow at most 2 runs). -/
theorem retry_counterexample :
    attemptsUsed
      [AttemptOutcome.permissionDenied, AttemptOutcome.permissionDenied,
        AttemptOutcome.permissionDenied] [true, true] = 3 ∧
    ¬ attemptsUsed
      [AttemptOutcome.permissionDenied, AttemptOutcome.permissionDenied,
        AttemptOutcome.permissionDenied] [true, true] ≤ 2 := by
  decide

/-- C9 amended: on a permission-denied failure the credential prompt is
invoked and, on selection, the operation is re-run — and this repeats for
every further permission-denied failure whose prompt resolves true, with no
retry bound: n consecutive permission-denied outcomes with n-1 confirming
prompts yield n runs; retrying stops only when an attempt succeeds, fails
with a non-permission error, or the prompt is declined; teardown runs after
every failed attempt. -/
theorem retry_amended :
    (∀ n : Nat, ∀ ps : List Bool,
      attemptsUsed (List.replicate (n + 1) AttemptOutcome.permissionDenied)
        (List.replicate n true ++ ps) = n + 1) ∧
    (∀ rest ps, attemptsUsed (AttemptOutcome.permissionDenied :: rest) (false :: ps) = 1) ∧
    (∀ rest ps, attemptsUsed (AttemptOutcome.success :: rest) ps = 1) ∧
    (∀ rest ps, attemptsUsed (AttemptOutcome.otherError :: rest) ps = 1) ∧
    (∀ n : Nat, teardownsRun (List.replicate (n + 1) AttemptOutcome.permissionDenied)
        (List.replicate n true) = n + 1) := by
  refine ⟨?_, fun _ _ => rfl, fun _ _ => rfl, fun _ _ => rfl, ?_⟩
  · intro n
    induction n with
    | zero =>
      intro ps
      cases ps with
      | nil => rfl
      | cons b t => cases b <;> rfl
    | succ m ih =>
      intro ps
      show 1 + attemptsUsed (List.replicate (m + 1) AttemptOutcome.permissionDenied)
          (List.replicate m true ++ ps) = m + 1 + 1
      rw [ih ps]
      omega
  · intro n
    induction n with
    | zero => rfl
    | succ m ih =>
      show 1 + teardownsRun (List.replicate (m + 1) AttemptOutcome.permissionDenied)
          (List.replicate m true) = m + 1 + 1
      rw [ih]
      omega

/-! ## Base64 `encode`/`decode` (geminiService.ts lines 273-288)

```
function decode(base64) {
  const binaryString = atob(base64);
  const bytes = new Uint8Array(binaryString.length);
  for (let i = 0; i < binaryString.length; i++) bytes[i] = binaryString.charCodeAt(i);
  return bytes;
}
function encode(bytes) {
  let binary = '';
  for (let i = 0; i < bytes.byteLength; i++) binary += String.fromCharCode(bytes[i]);
  return btoa(binary);
}
```

Byte arrays are lists of naturals below 256; binary strings are the same
lists (the `fromCharCode`/`charCodeAt` loops are the identity on char
codes below 256).  `btoa`/`atob` are the platform's RFC 4648 base64: three
bytes become four sextets, a final group of one or two bytes is padded with
`'='`; sextets are modelled as naturals 0-63 with 64 standing for the pad. -/

/-- The base64 alphabet used by `btoa`. -/
def base64Alphabet : List Char :=
  "ABCDEFGHIJKLMNOPQRSTUVWXYZabcdefghijklmnopqrstuvwxyz0123456789+/".data

/-- Sextet values of the base64 encoding of a byte list (`btoa` before the
alphabet lookup); 64 stands for the `'='` pad. -/
def btoaAux : List Nat → List Nat
  | [] => []
  | [a] => [a / 4, a % 4 * 16, 64, 64]
  | [a, b] => [a / 4, a % 4 * 16 + b / 16, b % 16 * 4, 64]
  | a :: b :: c :: rest =>
    (a / 4) :: (a % 4 * 16 + b / 16) :: (b % 16 * 4 + c / 64) :: (c % 64) :: btoaAux rest

/-- Byte recovery from sextet values (`atob` after the alphabet lookup):
groups of four sextets yield three bytes, a pad sextet (64) cuts the final
group short. -/
def atobAux : List Nat → List Nat
  | s1 :: s2 :: s3 :: s4 :: rest =>
    if s3 = 64 then [s1 * 4 + s2 / 16]
    else if s4 = 64 then [s1 * 4 + s2 / 16, s2 % 16 * 16 + s3 / 4]
    else (s1 * 4 + s2 / 16) :: (s2 % 16 * 16 + s3 / 4) :: (s3 % 4 * 64 + s4) :: atobAux rest
  | _ => []

/-- Position of a character in the alphabet (64 when absent). -/
def charIdx : List Char → Char → Nat
  | [], _ => 64
  | a :: rest, c => if a = c then 0 else 1 + charIdx rest c

/-- The base64 character of a sextet value (pad 64 becomes `'='`). -/
def b64Char (n : Nat) : Char := if n = 64 then '=' else base64Alphabet.getD n '?'

/-- The sextet value of a base64 character. -/
def b64Index (c : Char) : Nat := if c = '=' then 64 else charIdx base64Alphabet c

/-- `encode`: bytes to a binary string (identity on char codes), then `btoa`. -/
def encode (bytes : List Nat) : List Char := (btoaAux bytes).map b64Char

/-- `decode`: `atob`, then `charCodeAt` on every position. -/
def decode (s : List Char) : List Nat := atobAux (s.map b64Index)

theorem b64Index_b64Char : ∀ n, n < 65 → b64Index (b64Char n) = n := by decide

theorem btoaAux_le : ∀ l : List Nat, (∀ x ∈ l, x < 256) → ∀ v ∈ btoaAux l, v ≤ 64
  | [], _ => by simp [btoaAux]
  | [a], h => by
    have ha : a < 256 := h a (by simp)
    intro v hv
    simp only [btoaAux, List.mem_cons, List.not_mem_nil, or_false] at hv
    rcases hv with rfl | rfl | rfl | rfl <;> omega
  | [a, b], h => by
    have ha : a < 256 := h a (by simp)
    have hb : b < 256 := h b (by simp)
    intro v hv
    simp only [btoaAux, List.mem_cons, List.not_mem_nil, or_false] at hv
    rcases hv with rfl | rfl | rfl | rfl <;> omega
  | a :: b :: c :: rest, h => by
    have ha : a < 256 := h a (by simp)
    have hb : b < 256 := h b (by simp)
    have hc : c < 256 := h c (by simp)
    have ih := btoaAux_le rest (fun x hx => h x (by simp [hx]))
    intro v hv
    simp only [btoaAux, List.mem_cons] at hv
    rcases hv with rfl | rfl | rfl | rfl | hv
    · omega
    · omega
    · omega
    · omega
    · exact ih v hv

theorem atob_btoa : ∀ l : List Nat, (∀ x ∈ l, x < 256) → atobAux (btoaAux l) = l
  | [], _ => rfl
  | [a], h => by
    have ha : a < 256 := h a (by simp)
    have e1 : a / 4 * 4 + a % 4 * 16 / 16 = a := by omega
    simp only [btoaAux, atobAux]
    simp
    all_goals omega
  | [a, b], h => by
    have ha : a < 256 := h a (by simp)
    have hb : b < 256 := h b (by simp)
    have h3 : ¬ b % 16 * 4 = 64 := by omega
    have e1 : a / 4 * 4 + (a % 4 * 16 + b / 16) / 16 = a := by omega
    have e2 : (a % 4 * 16 + b / 16) % 16 * 16 + b % 16 * 4 / 4 = b := by omega
    simp only [btoaAux, atobAux]
    simp [h3]
    all_goals omega
  | a :: b :: c :: rest, h => by
    have ha : a < 256 := h a (by simp)
    have hb : b < 256 := h b (by simp)
    have hc : c < 256 := h c (by simp)
    have ih := atob_btoa rest (fun x hx => h x (by simp [hx]))
    have h3 : ¬ b % 16 * 4 + c / 64 = 64 := by omega
    have h4 : ¬ c % 64 = 64 := by omega
    have e1 : a / 4 * 4 + (a % 4 * 16 + b / 16) / 16 = a := by omega
    have e2 : (a % 4 * 16 + b / 16) % 16 * 16 + (b % 16 * 4 + c / 64) / 4 = b := by omega
    have e3 : (b % 16 * 4 + c / 64) % 4 * 64 + c % 64 = c := by omega
    simp only [btoaAux, atobAux]
    simp [h3, h4, ih]
    all_goals omega

/-- C10: for every byte array, decoding the encoding returns the original
bytes exactly: the base64 `encode` used for outbound capture audio and the
`decode` used for inbound playback audio are mutual inverses. -/
theorem base64_decode_encode (bytes : List Nat) (h : ∀ x ∈ bytes, x < 256) :
    decode (encode bytes) = bytes := by
  unfold decode encode
  rw [List.map_map]
  have hfix : ∀ v ∈ btoaAux bytes, (b64Index ∘ b64Char) v = v := fun v hv =>
    b64Index_b64Char v (Nat.lt_succ_of_le (btoaAux_le bytes h v hv))
  have hmap : (btoaAux bytes).map (b64Index ∘ b64Char) = btoaAux bytes :=
    calc (btoaAux bytes).map (b64Index ∘ b64Char)
        = (btoaAux bytes).map id := List.map_congr_left fun v hv => hfix v hv
      _ = btoaAux bytes := List.map_id _
  rw [hmap]
  exact atob_btoa bytes h

/-- Instantiation of `base64_decode_encode` at the byte array
[0, 77, 128, 255, 1] (length 5, exercising both pad shapes). -/
theorem base64_decode_encode_witness :
    (∀ x ∈ [0, 77, 128, 255, 1], x < 256) ∧
    decode (encode [0, 77, 128, 255, 1]) = [0, 77, 128, 255, 1] :=
  ⟨by decide, base64_decode_encode [0, 77, 128, 255, 1] (by decide)⟩

end FridgeOmeter
